import Mathlib

/-!
Shallow embedding of the mmflow repository fragments:
the flow post-processor (`mmflow/models/decoders/base_decoder.py`),
the flow and occlusion loader (`mmflow/datasets/pipelines/loading.py`),
and the sequence loss (re-exported from `mmflow/models/losses`).

Tensors are modelled as nested lists of rationals; Python `None` as
`Option.none`; a Python function that can raise returns `Except String`.
-/

/-- One channel of a flow tensor: a list of rows, each a list of entries. -/
abbrev Chan := List (List ℚ)

/-- A per-sample flow tensor of logical shape `(2, H, W)`: a list of channels. -/
abbrev FlowTensor := List Chan

/-- Total entry access into a channel; out of range yields `0`. -/
def at2 (ch : Chan) (i j : Nat) : ℚ := (ch.getD i []).getD j 0

/-- Total entry access into a flow tensor; out of range yields `0`. -/
def at3 (f : FlowTensor) (c i j : Nat) : ℚ := at2 (f.getD c []) i j

/-- Shape check for a flow tensor: `c` channels, each `h` rows of width `w`. -/
def hasShape (f : FlowTensor) (c h w : Nat) : Bool :=
  f.length == c && f.all fun ch => ch.length == h && ch.all fun row => row.length == w

/-- A constant tensor of shape `(c, h, w)` with every entry `v`. -/
def constFlow (c h w : Nat) (v : ℚ) : FlowTensor :=
  List.replicate c (List.replicate h (List.replicate w v))

/-- The height the source reads from `f.shape[1]`. -/
def shapeH (f : FlowTensor) : Nat := (f.headD []).length

/-- The width the source reads from `f.shape[2]`. -/
def shapeW (f : FlowTensor) : Nat := ((f.headD []).headD []).length

/-- Clamp a Python slice bound (step 1) to `[0, len]`, counting negative
bounds from the end of the list, as CPython does. -/
def pySliceBound (len : Nat) (i : Int) : Nat :=
  if i < 0 then (i + len).toNat else min i.toNat len

/-- Python slice `l[lo:hi]` with step 1. -/
def pySlice (l : List α) (lo hi : Int) : List α :=
  let s := pySliceBound l.length lo
  let e := pySliceBound l.length hi
  (l.drop s).take (e - s)

/-- Embeds the pad branch of `BaseDecoder.postprocess_result`
(`base_decoder.py` lines 86-88): the NumPy-style slice
`f[:, pad[0][0] : H - pad[0][1], pad[1][0] : W - pad[1][1]]`
where `H, W = f.shape[1:]`. -/
def cropPad (f : FlowTensor) (pad : (Nat × Nat) × (Nat × Nat)) : FlowTensor :=
  let H := shapeH f
  let W := shapeW f
  f.map fun ch =>
    (pySlice ch (pad.1.1 : Int) ((H : Int) - (pad.1.2 : Int))).map fun row =>
      pySlice row (pad.2.1 : Int) ((W : Int) - (pad.2.2 : Int))

/-- PyTorch source index for `align_corners=False` interpolation:
`max 0 ((dst + 0.5) * (inLen / outLen) - 0.5)`, the scale being
input size over output size. -/
def sourceIndex (inLen outLen : Nat) (dst : Nat) : ℚ :=
  max 0 (((dst : ℚ) + 1/2) * ((inLen : ℚ) / (outLen : ℚ)) - 1/2)

/-- One output pixel of PyTorch bilinear interpolation with
`align_corners=False`: the four neighbours of the (clamped) source
coordinate are blended with the fractional weights; the lower neighbour is
reused when it is the last row or column. -/
def bilinearAt (ch : Chan) (inH inW outH outW oy ox : Nat) : ℚ :=
  let hr := sourceIndex inH outH oy
  let wr := sourceIndex inW outW ox
  let h0 := hr.floor.toNat
  let w0 := wr.floor.toNat
  let h1 := if h0 + 1 < inH then h0 + 1 else h0
  let w1 := if w0 + 1 < inW then w0 + 1 else w0
  let hl := hr - (h0 : ℚ)
  let wl := wr - (w0 : ℚ)
  (1 - hl) * ((1 - wl) * at2 ch h0 w0 + wl * at2 ch h0 w1) +
    hl * ((1 - wl) * at2 ch h1 w0 + wl * at2 ch h1 w1)

/-- Embeds `F.interpolate(f[None], size=(outH, outW), mode="bilinear",
align_corners=False).squeeze(0)` applied to a `(C, H, W)` tensor:
every channel is resampled to `(outH, outW)`. -/
def interpolateBilinear (f : FlowTensor) (outH outW : Nat) : FlowTensor :=
  let inH := shapeH f
  let inW := shapeW f
  f.map fun ch =>
    (List.range outH).map fun oy =>
      (List.range outW).map fun ox => bilinearAt ch inH inW outH outW oy ox

/-- Embeds `f[0] = f[0] / w_scale; f[1] = f[1] / h_scale`
(`base_decoder.py` lines 96-97). The source tensors always carry exactly
two channels; a shorter tensor would raise in Python and is never reached. -/
def divideByScale (f : FlowTensor) (w h : ℚ) : FlowTensor :=
  match f with
  | c0 :: c1 :: rest =>
      (c0.map fun row => row.map fun x => x / w) ::
        (c1.map fun row => row.map fun x => x / h) :: rest
  | f => f

/-- Pointwise multiplication of a whole tensor by a scalar, the embedding of
`flow_results * self.flow_div`. -/
def mulFlow (d : ℚ) (f : FlowTensor) : FlowTensor :=
  f.map fun ch => ch.map fun row => row.map fun x => d * x

/-- The per-sample metadata record `data_samples[i].metainfo`. -/
structure ImgMeta where
  ori_shape : Nat × Nat
  img_shape : Nat × Nat
  pad : Option ((Nat × Nat) × (Nat × Nat))
  scale_factor : Option (ℚ × ℚ)
deriving DecidableEq, Repr

/-- A `FlowDataSample`: optional metadata plus the prediction attached under
the key `pred_flow_fw` (absent until `set_data` stores it). -/
structure FlowDataSample where
  metainfo : Option ImgMeta
  pred_flow_fw : Option FlowTensor
deriving DecidableEq, Repr

/-- The body of the metadata branch of the per-sample loop of
`postprocess_result` (`base_decoder.py` lines 78-97): crop by `pad` when
present, else bilinear-upsample to `ori_shape` and divide the two channels
by the scale factors when present, else leave the tensor unchanged. -/
def processSample (f : FlowTensor) (m : ImgMeta) : FlowTensor :=
  match m.pad with
  | some p => cropPad f p
  | none =>
      match m.scale_factor with
      | some (w_scale, h_scale) =>
          divideByScale (interpolateBilinear f m.ori_shape.1 m.ori_shape.2) w_scale h_scale
      | none => f

/-- Embeds `BaseDecoder.postprocess_result` (`base_decoder.py` lines 46-100).
The `return data_samples` statement of the source sits INSIDE the
per-sample `for` loop, so the loop body runs at most once: only sample 0
is ever processed, and an empty batch falls through the loop and the
function returns Python `None`, modelled as `Except.ok none`. The length
assertion of line 69 is modelled as `Except.error`. -/
def postprocess_result (flow_results : List FlowTensor)
    (data_samples : Option (List FlowDataSample)) :
    Except String (Option (List FlowDataSample)) :=
  match data_samples with
  | none =>
      -- only_prediction: data_samples starts as [] and the first loop
      -- iteration appends one fresh record, then returns.
      match flow_results with
      | [] => .ok none
      | f :: _ => .ok (some [{ metainfo := none, pred_flow_fw := some f }])
  | some ds =>
      if flow_results.length ≠ ds.length then .error "AssertionError"
      else
        match flow_results, ds with
        | [], _ => .ok none
        | f :: _, s0 :: rest =>
            match s0.metainfo with
            | none => .error "KeyError: ori_shape"
            | some m =>
                .ok (some ({ s0 with pred_flow_fw := some (processSample f m) } :: rest))
        | _ :: _, [] => .error "IndexError"

/-- Embeds `BaseDecoder.predict_by_feat` (`base_decoder.py` lines 102-126):
without metadata, scale by `flow_div` and post-process; with metadata,
resize the batch to `img_shape` of sample 0, scale by `flow_div`, then
post-process. -/
def predict_by_feat (flow_results : List FlowTensor)
    (data_samples : Option (List FlowDataSample)) (flow_div : ℚ) :
    Except String (Option (List FlowDataSample)) :=
  match data_samples with
  | none => postprocess_result (flow_results.map (mulFlow flow_div)) none
  | some ds =>
      match ds with
      | [] => .error "IndexError"
      | s0 :: _ =>
          match s0.metainfo with
          | none => .error "KeyError: img_shape"
          | some m =>
              let H := m.img_shape.1
              let W := m.img_shape.2
              let resized := flow_results.map fun f => interpolateBilinear f H W
              postprocess_result (resized.map (mulFlow flow_div)) (some ds)

/-- A dense ground-truth flow array of shape `(H, W, 2)` as decoded by
`flow_from_bytes`; its internal layout is irrelevant to the loader, which
only moves it between record keys. -/
abbrev DenseFlow := List (List (List ℚ))

/-- A single-channel mask or image as a list of rows. -/
abbrev Mask := List (List ℚ)

/-- The external collaborators of `LoadAnnotations`, treated as opaque
byte-providers and decoders: the file client, `flow_from_bytes` (which also
receives the last three characters of the file name), mmcv
`sparse_flow_from_bytes` and mmcv `imfrombytes` in grayscale mode (whose
pixels are bytes, hence naturals). -/
structure LoadEnv where
  file_get : String → List Nat
  flow_from_bytes : List Nat → String → DenseFlow
  sparse_flow_from_bytes : List Nat → DenseFlow × Mask
  imfrombytes_gray : List Nat → List (List Nat)

/-- The results record flowing through `LoadAnnotations.transform`: the four
optional path keys and the ground-truth keys the transform adds. A key a
Python dict would not hold yet is modelled as `none`. -/
structure Results where
  flow_fw_path : Option String := none
  flow_bw_path : Option String := none
  occ_fw_path : Option String := none
  occ_bw_path : Option String := none
  gt_flow_fw : Option DenseFlow := none
  gt_flow_bw : Option DenseFlow := none
  gt_valid : Option Mask := none
  gt_occ_fw : Option Mask := none
  gt_occ_bw : Option Mask := none
deriving DecidableEq, Repr

/-- Python `fname[-3:]`: the last three characters of the file name select
the flow decoder format. -/
def pyLast3 (s : String) : String := String.mk (s.toList.reverse.take 3).reverse

/-- Embeds `LoadAnnotations._load_flow` (`loading.py` lines 102-129): decode
each present flow path, store `none` for each absent one. -/
def load_flow (env : LoadEnv) (results : Results) : Results :=
  let flow_fw :=
    match results.flow_fw_path with
    | some fname => some (env.flow_from_bytes (env.file_get fname) (pyLast3 fname))
    | none => none
  let flow_bw :=
    match results.flow_bw_path with
    | some fname => some (env.flow_from_bytes (env.file_get fname) (pyLast3 fname))
    | none => none
  { results with gt_flow_fw := flow_fw, gt_flow_bw := flow_bw }

/-- Embeds `LoadAnnotations._load_sparse_flow` (`loading.py` lines 131-153):
with a forward path present, decode flow and validity mask and store them,
with `gt_flow_bw` hard-coded to `none`. With the forward path absent, the
local `valid` is never assigned, so the assignment
`results[...gt_valid...] = valid` raises `UnboundLocalError`. -/
def load_sparse_flow (env : LoadEnv) (results : Results) : Except String Results :=
  match results.flow_fw_path with
  | some fname =>
      let fv := env.sparse_flow_from_bytes (env.file_get fname)
      .ok { results with gt_flow_fw := some fv.1, gt_flow_bw := none,
                         gt_valid := some fv.2 }
  | none => .error "UnboundLocalError: valid"

/-- Grayscale image normalization of `_load_occ`: `(img / 255).astype(np.float32)`. -/
def occOfImage (img : List (List Nat)) : Mask :=
  img.map fun row => row.map fun (v : Nat) => (v : ℚ) / 255

/-- Embeds `LoadAnnotations._load_occ` (`loading.py` lines 155-182): each
present occlusion path is decoded as grayscale, divided by 255 and stored;
absent paths store `none`. -/
def load_occ (env : LoadEnv) (results : Results) : Results :=
  let occ_fw :=
    match results.occ_fw_path with
    | some fname => some (occOfImage (env.imfrombytes_gray (env.file_get fname)))
    | none => none
  let occ_bw :=
    match results.occ_bw_path with
    | some fname => some (occOfImage (env.imfrombytes_gray (env.file_get fname)))
    | none => none
  { results with gt_occ_fw := occ_fw, gt_occ_bw := occ_bw }

/-- Embeds `LoadAnnotations.transform` (`loading.py` lines 81-100): the
sparse or dense flow loader runs first, then the occlusion loader when
`with_occ` is set. -/
def LoadAnnotations.transform (env : LoadEnv) (with_occ sparse : Bool)
    (results : Results) : Except String Results :=
  match (if sparse then load_sparse_flow env results
         else .ok (load_flow env results)) with
  | .error e => .error e
  | .ok r => .ok (if with_occ then load_occ env r else r)

/-- Modelled from the spec: the source file of `sequence_loss` is not in the
repository snapshot (only its re-export from `mmflow/models/losses`), so the
definition follows the spec: a weighted sum over an ordered sequence of `N`
iterative refinement predictions against one ground truth, each iteration
contributing `weight_i * loss_i` with `weight_i = gamma ^ (N - 1 - i)`,
where `loss_i` is the base per-iteration loss of prediction `i`. -/
def sequence_loss (baseLoss : FlowTensor → FlowTensor → ℚ)
    (preds : List FlowTensor) (gt : FlowTensor) (gamma : ℚ) : ℚ :=
  let N := preds.length
  (preds.mapIdx fun i p => gamma ^ (N - 1 - i) * baseLoss p gt).sum

/-- Concrete tensors and samples used by closed theorems below. -/
def flowA : FlowTensor := [[[1]], [[2]]]

def flowB : FlowTensor := [[[3]], [[4]]]

def metaPlain : ImgMeta :=
  { ori_shape := (1, 1), img_shape := (1, 1), pad := none, scale_factor := none }

def sampleA : FlowDataSample := { metainfo := some metaPlain, pred_flow_fw := none }

def sampleB : FlowDataSample := { metainfo := some metaPlain, pred_flow_fw := none }

/-- A concrete loader environment with trivial decoders, used by closed
theorems about the loader. -/
def defaultEnv : LoadEnv :=
  { file_get := fun _ => []
    flow_from_bytes := fun _ _ => [[[1, 2]]]
    sparse_flow_from_bytes := fun _ => ([[[3, 4]]], [[1, 0]])
    imfrombytes_gray := fun _ => [[0, 255], [128, 51]] }

/-- A concrete input record carrying only a forward flow path. -/
def recSparse : Results := { flow_fw_path := some "k.png" }

/-- A concrete input record carrying both occlusion paths. -/
def recOcc : Results := { occ_fw_path := some "of.png", occ_bw_path := some "ob.png" }

/-- A mixed input record: forward flow path and backward occlusion path
present, backward flow path and forward occlusion path absent. -/
def recMixed : Results :=
  { flow_fw_path := some "k.png", occ_bw_path := some "ob.png" }

/-- The per-key contract of absent paths in `LoadAnnotations.transform`
(with occlusion loading on), stated over an arbitrary record so that
present and absent keys may mix. In dense mode every absent path key
yields `none` in its output key without error. In sparse mode, when
`flow_fw_path` is present, the transform succeeds and each absent
remaining key still yields `none` (the backward flow unconditionally so);
when `flow_fw_path` is absent the transform raises, since the local
variable holding the validity mask is never assigned. -/
def AbsentPathsSpec (env : LoadEnv) (r : Results) (q : String) : Prop :=
  (r.flow_fw_path = none →
    (LoadAnnotations.transform env true false r).map
      (fun out => out.gt_flow_fw) = .ok none) ∧
  (r.flow_bw_path = none →
    (LoadAnnotations.transform env true false r).map
      (fun out => out.gt_flow_bw) = .ok none) ∧
  (r.occ_fw_path = none →
    (LoadAnnotations.transform env true false r).map
      (fun out => out.gt_occ_fw) = .ok none) ∧
  (r.occ_bw_path = none →
    (LoadAnnotations.transform env true false r).map
      (fun out => out.gt_occ_bw) = .ok none) ∧
  (r.flow_fw_path = some q →
    (LoadAnnotations.transform env true true r).map
      (fun out => out.gt_flow_bw) = .ok none) ∧
  (r.flow_fw_path = some q → r.occ_fw_path = none →
    (LoadAnnotations.transform env true true r).map
      (fun out => out.gt_occ_fw) = .ok none) ∧
  (r.flow_fw_path = some q → r.occ_bw_path = none →
    (LoadAnnotations.transform env true true r).map
      (fun out => out.gt_occ_bw) = .ok none) ∧
  (r.flow_fw_path = none →
    LoadAnnotations.transform env true true r = .error "UnboundLocalError: valid")

/-- Metadata with pad `((2,2),(3,3))` on a `(2,5,7)` tensor. -/
def meta4 : ImgMeta :=
  { ori_shape := (5, 7), img_shape := (5, 7),
    pad := some ((2, 2), (3, 3)), scale_factor := none }

/-- A sample carrying `meta4`. -/
def sample4 : FlowDataSample := { metainfo := some meta4, pred_flow_fw := none }

/-- Metadata with `scale_factor = (1/2, 1/2)` and `ori_shape = (100, 100)`. -/
def meta5 : ImgMeta :=
  { ori_shape := (100, 100), img_shape := (50, 50),
    pad := none, scale_factor := some (1/2, 1/2) }

/-- A sample carrying `meta5`. -/
def sample5 : FlowDataSample := { metainfo := some meta5, pred_flow_fw := none }

/-- Metadata carrying both a pad and scale factors. -/
def meta6 : ImgMeta :=
  { ori_shape := (1, 1), img_shape := (1, 1),
    pad := some ((0, 0), (0, 0)), scale_factor := some (1/2, 1/2) }

/-- A sample carrying `meta6`. -/
def sample6 : FlowDataSample := { metainfo := some meta6, pred_flow_fw := none }

/-- C10: an empty batch with absent metadata falls through the loop of
`postprocess_result` and yields Python `None`, not an empty list. -/
theorem postprocess_empty_batch_returns_none :
    postprocess_result [] none = .ok none ∧
      postprocess_result [] none ≠ .ok (some []) := by
  exact ⟨rfl, fun h => Option.noConfusion (Except.ok.inj h)⟩

/-- C1 failing input: on a two-sample batch with two metadata records,
`postprocess_result` returns inside the loop after processing sample 0;
the second returned record never receives a `pred_flow_fw` entry. -/
theorem postprocess_two_samples_first_only :
    postprocess_result [flowA, flowB] (some [sampleA, sampleB]) =
      .ok (some [{ sampleA with pred_flow_fw := some flowA }, sampleB]) ∧
      sampleB.pred_flow_fw = none := by
  exact ⟨rfl, rfl⟩

/-- C3 failing input: with metadata absent, a two-tensor batch yields a
single prediction-only record wrapping only the first tensor (its values
unchanged); the second tensor is dropped. -/
theorem postprocess_only_prediction_first_only :
    postprocess_result [flowA, flowB] none =
      .ok (some [{ metainfo := none, pred_flow_fw := some flowA }]) := by
  exact rfl

/-- Helper: `List.mapIdx` with a function that ignores the index is `List.map`. -/
theorem mapIdx_eq_map_of_const {α β : Type} (h : α → β) :
    ∀ (l : List α) (g : ℕ → α → β), (∀ i a, g i a = h a) → l.mapIdx g = l.map h := by
  intro l
  induction l with
  | nil => intro g _; rfl
  | cons a t ih =>
      intro g hg
      rw [List.mapIdx_cons, hg 0 a, List.map_cons,
        ih (fun i b => g (i + 1) b) (fun i b => hg (i + 1) b)]

/-- C2 counterexample: in sparse mode, a record with no `flow_fw_path` does
not yield `none` outputs; the transform raises, because the local `valid`
of `_load_sparse_flow` is only assigned when the path is present. -/
theorem sparse_absent_forward_path_errors :
    LoadAnnotations.transform defaultEnv false true {} =
      .error "UnboundLocalError: valid" := rfl

/-- C2 amended: for every environment and every record, in dense mode each
absent path key yields `none` in its output key without error; in sparse
mode with `flow_fw_path` present, the backward flow key is `none` and each
absent occlusion key yields `none`; in sparse mode with `flow_fw_path`
absent the transform raises an unbound-local error instead. -/
theorem absent_paths_yield_none (env : LoadEnv) (r : Results) (q : String) :
    AbsentPathsSpec env r q := by
  unfold AbsentPathsSpec
  refine ⟨?_, ?_, ?_, ?_, ?_, ?_, ?_, ?_⟩
  · intro h
    simp [LoadAnnotations.transform, load_flow, load_occ, h, Except.map]
  · intro h
    simp [LoadAnnotations.transform, load_flow, load_occ, h, Except.map]
  · intro h
    simp [LoadAnnotations.transform, load_flow, load_occ, h, Except.map]
  · intro h
    simp [LoadAnnotations.transform, load_flow, load_occ, h, Except.map]
  · intro h
    simp [LoadAnnotations.transform, load_sparse_flow, load_occ, h, Except.map]
  · intro h h2
    simp [LoadAnnotations.transform, load_sparse_flow, load_occ, h, h2,
      Except.map]
  · intro h h2
    simp [LoadAnnotations.transform, load_sparse_flow, load_occ, h, h2,
      Except.map]
  · intro h
    simp [LoadAnnotations.transform, load_sparse_flow, h]

/-- Witness for the amended C2 theorem at a mixed record (forward flow and
backward occlusion present, the other two keys absent) and at the empty
record (all four keys absent). -/
theorem absent_paths_yield_none_witness :
    AbsentPathsSpec defaultEnv recMixed "k.png" ∧
    AbsentPathsSpec defaultEnv {} "x" :=
  ⟨absent_paths_yield_none defaultEnv recMixed "k.png",
    absent_paths_yield_none defaultEnv {} "x"⟩

/-- C7: in sparse mode with a forward flow path present, the loader decodes
the forward flow only: `gt_flow_fw` is the decoded flow, `gt_valid` the
companion validity mask, and `gt_flow_bw` is `none`. -/
theorem sparse_present_loads_forward_only (env : LoadEnv) (r : Results)
    (p : String) (h : r.flow_fw_path = some p) :
    LoadAnnotations.transform env false true r =
      .ok { r with
              gt_flow_fw := some (env.sparse_flow_from_bytes (env.file_get p)).1,
              gt_flow_bw := none,
              gt_valid := some (env.sparse_flow_from_bytes (env.file_get p)).2 } := by
  simp [LoadAnnotations.transform, load_sparse_flow, h]

/-- Witness for the sparse-mode loading theorem at a concrete record. -/
theorem sparse_present_loads_forward_only_witness :
    recSparse.flow_fw_path = some "k.png" ∧
    LoadAnnotations.transform defaultEnv false true recSparse =
      .ok { recSparse with
              gt_flow_fw :=
                some (defaultEnv.sparse_flow_from_bytes
                  (defaultEnv.file_get "k.png")).1,
              gt_flow_bw := none,
              gt_valid :=
                some (defaultEnv.sparse_flow_from_bytes
                  (defaultEnv.file_get "k.png")).2 } :=
  ⟨rfl, sparse_present_loads_forward_only defaultEnv recSparse "k.png" rfl⟩

/-- C8: with the occlusion flag on, each present occlusion path is decoded
as grayscale, divided by 255 and stored under its `gt_occ` key, in sparse
and dense mode alike; and the division by 255 maps byte images into
values inside the interval from 0 to 1. -/
theorem occ_paths_loaded (env : LoadEnv) (r : Results) (sparse : Bool)
    (pf pb q : String) (hf : r.occ_fw_path = some pf) (hb : r.occ_bw_path = some pb)
    (hsp : sparse = true → r.flow_fw_path = some q) :
    (LoadAnnotations.transform env true sparse r).map
        (fun out => (out.gt_occ_fw, out.gt_occ_bw)) =
      .ok (some (occOfImage (env.imfrombytes_gray (env.file_get pf))),
           some (occOfImage (env.imfrombytes_gray (env.file_get pb)))) ∧
    ∀ img : List (List Nat), (∀ row ∈ img, ∀ v ∈ row, v ≤ 255) →
      ∀ row ∈ occOfImage img, ∀ x ∈ row, 0 ≤ x ∧ x ≤ 1 := by
  constructor
  · cases sparse
    · simp [LoadAnnotations.transform, load_flow, load_occ, hf, hb, Except.map]
    · simp [LoadAnnotations.transform, load_sparse_flow, load_occ, hf, hb,
        hsp rfl, Except.map]
  · intro img hbound row hrow x hx
    unfold occOfImage at hrow
    obtain ⟨row0, hrow0, hmap⟩ := List.mem_map.mp hrow
    subst hmap
    obtain ⟨v, hv, hxv⟩ := List.mem_map.mp hx
    subst hxv
    constructor
    · exact div_nonneg (Nat.cast_nonneg v) (by norm_num)
    · rw [div_le_one (by norm_num)]
      exact_mod_cast hbound row0 hrow0 v hv

/-- Witness for the occlusion loading theorem at a concrete record in dense
mode. -/
theorem occ_paths_loaded_witness :
    (recOcc.occ_fw_path = some "of.png" ∧ recOcc.occ_bw_path = some "ob.png") ∧
    ((LoadAnnotations.transform defaultEnv true false recOcc).map
        (fun out => (out.gt_occ_fw, out.gt_occ_bw)) =
      .ok (some (occOfImage (defaultEnv.imfrombytes_gray
              (defaultEnv.file_get "of.png"))),
           some (occOfImage (defaultEnv.imfrombytes_gray
              (defaultEnv.file_get "ob.png")))) ∧
    ∀ img : List (List Nat), (∀ row ∈ img, ∀ v ∈ row, v ≤ 255) →
      ∀ row ∈ occOfImage img, ∀ x ∈ row, 0 ≤ x ∧ x ≤ 1) :=
  ⟨⟨rfl, rfl⟩,
    occ_paths_loaded defaultEnv recOcc false "of.png" "ob.png" "x"
      rfl rfl (fun h => nomatch h)⟩

/-- C9: sequence loss with the geometric weight policy at `gamma = 1` equals
the unweighted sum of the per-iteration base losses. -/
theorem sequence_loss_gamma_one_is_sum (baseLoss : FlowTensor → FlowTensor → ℚ)
    (preds : List FlowTensor) (gt : FlowTensor) :
    sequence_loss baseLoss preds gt 1 =
      (preds.map fun p => baseLoss p gt).sum := by
  show (preds.mapIdx fun i p => (1 : ℚ) ^ (preds.length - 1 - i) * baseLoss p gt).sum
      = (preds.map fun p => baseLoss p gt).sum
  rw [mapIdx_eq_map_of_const (fun p => baseLoss p gt) preds _
    (fun i a => by rw [one_pow, one_mul])]

/-- Helper: `getD` commutes with `map` when the default is already mapped. -/
theorem getD_map_fix {α β : Type} (F : α → β) :
    ∀ (l : List α) (i : Nat) (d : α), (l.map F).getD i (F d) = F (l.getD i d)
  | [], _, _ => rfl
  | _ :: _, 0, _ => rfl
  | _ :: t, i + 1, d => getD_map_fix F t i d

/-- Helper: the Python slice `l[a : L - b]` for natural bounds inside the
list is a drop followed by a take. -/
theorem pySlice_sub {α : Type} (l : List α) (a b L : Nat) (hL : l.length = L)
    (hab : a + b ≤ L) :
    pySlice l (a : Int) ((L : Int) - (b : Int)) = (l.drop a).take (L - b - a) := by
  unfold pySlice pySliceBound
  rw [if_neg (by omega), if_neg (by omega), Int.toNat_natCast, Int.toNat_sub, hL,
    Nat.min_eq_left (by omega), Nat.min_eq_left (by omega)]

/-- Helper: indexing a drop-then-take window reads the base list at the
shifted index. -/
theorem getD_drop_take {α : Type} (l : List α) (a k i : Nat) (d : α)
    (hik : i < k) :
    ((l.drop a).take k).getD i d = l.getD (a + i) d := by
  rw [List.getD_eq_getElem?_getD, List.getD_eq_getElem?_getD,
    List.getElem?_take, if_pos hik, List.getElem?_drop]

/-- Helper: a well-shaped tensor has the declared number of channels. -/
theorem hasShape_length (f : FlowTensor) (C H W : Nat)
    (hf : hasShape f C H W = true) : f.length = C := by
  simp only [hasShape, Bool.and_eq_true, beq_iff_eq] at hf
  exact hf.1

/-- Helper: every channel of a well-shaped tensor has the declared height
and row widths. -/
theorem hasShape_chan (f : FlowTensor) (C H W : Nat)
    (hf : hasShape f C H W = true) {ch : Chan} (hch : ch ∈ f) :
    ch.length = H ∧ ∀ row ∈ ch, row.length = W := by
  simp only [hasShape, Bool.and_eq_true, beq_iff_eq, List.all_eq_true] at hf
  exact ⟨(hf.2 ch hch).1, fun row hrow => (hf.2 ch hch).2 row hrow⟩

/-- Helper: `shapeH` of a nonempty well-shaped tensor is the declared height. -/
theorem shapeH_eq (f : FlowTensor) (C H W : Nat)
    (hf : hasShape f C H W = true) (hC : 0 < C) : shapeH f = H := by
  cases f with
  | nil =>
      have h0 := hasShape_length [] C H W hf
      simp only [List.length_nil] at h0
      omega
  | cons x t => exact (hasShape_chan (x :: t) C H W hf (List.mem_cons_self x t)).1

/-- Helper: `shapeW` of a well-shaped tensor with channels and rows present
is the declared width. -/
theorem shapeW_eq (f : FlowTensor) (C H W : Nat)
    (hf : hasShape f C H W = true) (hC : 0 < C) (hH : 0 < H) : shapeW f = W := by
  cases f with
  | nil =>
      have h0 := hasShape_length [] C H W hf
      simp only [List.length_nil] at h0
      omega
  | cons x t =>
      obtain ⟨hx, hrow⟩ := hasShape_chan (x :: t) C H W hf (List.mem_cons_self x t)
      cases x with
      | nil =>
          simp only [List.length_nil] at hx
          omega
      | cons r x' => exact hrow r (List.mem_cons_self r x')

/-- Helper: the pad crop of a `(C, H, W)` tensor with margins inside the
tensor has shape `(C, H - a - b, W - c - d)`. -/
theorem cropPad_shape (f : FlowTensor) (C H W a b c d : Nat)
    (hf : hasShape f C H W = true) (hab : a + b ≤ H) (hcd : c + d ≤ W) :
    hasShape (cropPad f ((a, b), (c, d))) C (H - a - b) (W - c - d) = true := by
  simp only [cropPad, hasShape, List.length_map, Bool.and_eq_true, beq_iff_eq,
    List.all_eq_true]
  refine ⟨hasShape_length f C H W hf, ?_⟩
  intro ch hch
  obtain ⟨ch0, hch0, hmap⟩ := List.mem_map.mp hch
  subst hmap
  have hC : 0 < C := by
    have hl := hasShape_length f C H W hf
    cases f with
    | nil => cases hch0
    | cons x t =>
        simp only [List.length_cons] at hl
        omega
  obtain ⟨hlen0, hrow0⟩ := hasShape_chan f C H W hf hch0
  rw [shapeH_eq f C H W hf hC,
    pySlice_sub ch0 a b H hlen0 hab]
  constructor
  · simp only [List.length_map, List.length_take, List.length_drop, hlen0]
    rw [Nat.min_eq_left (by omega)]
    omega
  · intro row hrow
    obtain ⟨row0, hrowmem, hmap2⟩ := List.mem_map.mp hrow
    subst hmap2
    have hrowch : row0 ∈ ch0 :=
      List.mem_of_mem_drop (List.mem_of_mem_take hrowmem)
    have hH : 0 < H := by
      rw [← hlen0]
      exact List.length_pos.mpr (List.ne_nil_of_mem hrowch)
    rw [shapeW_eq f C H W hf hC hH,
      pySlice_sub row0 c d W (hrow0 row0 hrowch) hcd]
    simp only [List.length_take, List.length_drop, hrow0 row0 hrowch]
    rw [Nat.min_eq_left (by omega)]
    omega

/-- Helper: inside the cropped region, entries of the pad crop come from the
source tensor shifted by the leading margins. -/
theorem cropPad_entry (f : FlowTensor) (C H W a b c d : Nat)
    (hf : hasShape f C H W = true) (hab : a + b ≤ H) (hcd : c + d ≤ W)
    (ch i j : Nat) (hch : ch < C) (hi : i < H - a - b) (hj : j < W - c - d) :
    at3 (cropPad f ((a, b), (c, d))) ch i j = at3 f ch (a + i) (c + j) := by
  have hC : 0 < C := by omega
  have hH : 0 < H := by omega
  have hflen := hasShape_length f C H W hf
  have hchmem : f.getD ch [] ∈ f := by
    rw [List.getD_eq_getElem f [] (by omega : ch < f.length)]
    exact List.getElem_mem _
  obtain ⟨hchlen, hchrow⟩ := hasShape_chan f C H W hf hchmem
  simp only [cropPad, at3, at2]
  rw [shapeH_eq f C H W hf hC, shapeW_eq f C H W hf hC hH]
  have h1 := getD_map_fix
    (fun ch' => (pySlice ch' (a : Int) ((H : Int) - (b : Int))).map
      (fun row => pySlice row (c : Int) ((W : Int) - (d : Int)))) f ch []
  simp only [show pySlice ([] : Chan) (a : Int) ((H : Int) - (b : Int)) = [] from
    by simp [pySlice], List.map_nil] at h1
  rw [h1, pySlice_sub (f.getD ch []) a b H hchlen hab]
  have haiH : a + i < (f.getD ch []).length := by omega
  have h2 := getD_map_fix
    (fun row => pySlice row (c : Int) ((W : Int) - (d : Int)))
    ((f.getD ch [] |>.drop a).take (H - b - a)) i []
  simp only [show pySlice ([] : List ℚ) (c : Int) ((W : Int) - (d : Int)) = [] from
    by simp [pySlice]] at h2
  rw [h2, getD_drop_take (f.getD ch []) a (H - b - a) i [] (by omega)]
  have hrowmem : (f.getD ch []).getD (a + i) [] ∈ f.getD ch [] := by
    rw [List.getD_eq_getElem (f.getD ch []) [] (by omega)]
    exact List.getElem_mem _
  rw [pySlice_sub ((f.getD ch []).getD (a + i) []) c d W (hchrow _ hrowmem) hcd,
    getD_drop_take ((f.getD ch []).getD (a + i) []) c (W - d - c) j 0 (by omega)]

/-- Helper: the constant tensor has its declared shape. -/
theorem hasShape_constFlow (c h w : Nat) (v : ℚ) :
    hasShape (constFlow c h w v) c h w = true := by
  simp [constFlow, hasShape, List.all_eq_true, List.mem_replicate]

/-- C4: on a sample whose metadata carries `pad = ((a,b),(c,d))`, the
post-processor crops the `(2,H,W)` prediction by removing `a` rows at the
top, `b` at the bottom, `c` columns on the left and `d` on the right,
yielding shape `(2, H-a-b, W-c-d)` with entries taken from the source at
the shifted positions. -/
theorem postprocess_pad_crops (f : FlowTensor) (m : ImgMeta) (s : FlowDataSample)
    (a b c d H W : Nat)
    (hf : hasShape f 2 H W = true)
    (hm : s.metainfo = some m)
    (hp : m.pad = some ((a, b), (c, d)))
    (hab : a + b ≤ H) (hcd : c + d ≤ W) :
    postprocess_result [f] (some [s]) =
      .ok (some [{ s with pred_flow_fw := some (cropPad f ((a, b), (c, d))) }]) ∧
    hasShape (cropPad f ((a, b), (c, d))) 2 (H - a - b) (W - c - d) = true ∧
    ∀ ch i j, ch < 2 → i < H - a - b → j < W - c - d →
      at3 (cropPad f ((a, b), (c, d))) ch i j = at3 f ch (a + i) (c + j) := by
  refine ⟨?_, cropPad_shape f 2 H W a b c d hf hab hcd,
    fun ch i j hch hi hj => cropPad_entry f 2 H W a b c d hf hab hcd ch i j hch hi hj⟩
  simp [postprocess_result, processSample, hm, hp]

/-- Witness for the pad-cropping theorem: pad `((2,2),(3,3))` on a concrete
`(2,5,7)` tensor crops to `(2,1,1)`. -/
theorem postprocess_pad_crops_witness :
    (hasShape (constFlow 2 5 7 (3/2)) 2 5 7 = true ∧
      sample4.metainfo = some meta4 ∧
      meta4.pad = some ((2, 2), (3, 3)) ∧ 2 + 2 ≤ 5 ∧ 3 + 3 ≤ 7) ∧
    (postprocess_result [constFlow 2 5 7 (3/2)] (some [sample4]) =
        .ok (some [{ sample4 with
          pred_flow_fw := some (cropPad (constFlow 2 5 7 (3/2)) ((2, 2), (3, 3))) }]) ∧
      hasShape (cropPad (constFlow 2 5 7 (3/2)) ((2, 2), (3, 3)))
          2 (5 - 2 - 2) (7 - 3 - 3) = true ∧
      ∀ ch i j, ch < 2 → i < 5 - 2 - 2 → j < 7 - 3 - 3 →
        at3 (cropPad (constFlow 2 5 7 (3/2)) ((2, 2), (3, 3))) ch i j =
          at3 (constFlow 2 5 7 (3/2)) ch (2 + i) (3 + j)) :=
  ⟨⟨hasShape_constFlow 2 5 7 (3/2), rfl, rfl, by omega, by omega⟩,
    postprocess_pad_crops (constFlow 2 5 7 (3/2)) meta4 sample4 2 2 3 3 5 7
      (hasShape_constFlow 2 5 7 (3/2)) rfl rfl (by omega) (by omega)⟩

/-- Helper: bilinear interpolation keeps the channel count and produces the
requested spatial size. -/
theorem interpolateBilinear_shape (f : FlowTensor) (C outH outW : Nat)
    (hlen : f.length = C) :
    hasShape (interpolateBilinear f outH outW) C outH outW = true := by
  simp only [interpolateBilinear, hasShape, List.length_map, Bool.and_eq_true,
    beq_iff_eq, List.all_eq_true]
  refine ⟨hlen, ?_⟩
  intro ch hch
  obtain ⟨ch0, _, hmap⟩ := List.mem_map.mp hch
  subst hmap
  refine ⟨by simp, ?_⟩
  intro row hrow
  obtain ⟨oy, _, hmap2⟩ := List.mem_map.mp hrow
  subst hmap2
  simp

/-- Helper: entries of a channel mapped through a pointwise division are the
original entries divided, with out-of-range reads both zero. -/
theorem at2_map_div (c : Chan) (q : ℚ) (i j : Nat) :
    at2 (c.map fun row => row.map fun x => x / q) i j = at2 c i j / q := by
  unfold at2
  have h1 := getD_map_fix (fun row : List ℚ => row.map fun x => x / q) c i []
  simp only [List.map_nil] at h1
  rw [h1]
  have h2 := getD_map_fix (fun x : ℚ => x / q) (c.getD i []) j 0
  simp only [zero_div] at h2
  rw [h2]

/-- Helper: the per-channel division keeps the tensor shape. -/
theorem divideByScale_shape (g : FlowTensor) (C hh ww : Nat) (w h : ℚ)
    (hg : hasShape g C hh ww = true) :
    hasShape (divideByScale g w h) C hh ww = true := by
  match g with
  | [] => exact hg
  | [c0] => exact hg
  | c0 :: c1 :: rest =>
      simp only [hasShape, divideByScale, List.length_cons, List.length_map,
        Bool.and_eq_true, beq_iff_eq, List.all_eq_true] at hg ⊢
      obtain ⟨hlen, hall⟩ := hg
      refine ⟨hlen, ?_⟩
      intro ch hch
      simp only [List.mem_cons] at hch
      rcases hch with hch | hch | hch
      · subst hch
        obtain ⟨h0, hrows⟩ := hall c0 (by simp)
        refine ⟨by simpa using h0, ?_⟩
        intro row hrow
        obtain ⟨row0, hrow0, hmap⟩ := List.mem_map.mp hrow
        subst hmap
        simpa using hrows row0 hrow0
      · subst hch
        obtain ⟨h1, hrows⟩ := hall c1 (by simp)
        refine ⟨by simpa using h1, ?_⟩
        intro row hrow
        obtain ⟨row0, hrow0, hmap⟩ := List.mem_map.mp hrow
        subst hmap
        simpa using hrows row0 hrow0
      · exact hall ch (by simp [hch])

/-- Helper: entries of the per-channel division: channel 0 is divided by the
width scale, channel 1 by the height scale. -/
theorem divideByScale_at3 (g : FlowTensor) (w h : ℚ) (hg : 2 ≤ g.length)
    (i j : Nat) :
    at3 (divideByScale g w h) 0 i j = at3 g 0 i j / w ∧
    at3 (divideByScale g w h) 1 i j = at3 g 1 i j / h := by
  match g with
  | [] => simp at hg
  | [c0] => simp at hg
  | c0 :: c1 :: rest =>
      unfold divideByScale at3
      exact ⟨at2_map_div c0 w i j, at2_map_div c1 h i j⟩

/-- C5: on a sample whose metadata has no pad but a scale factor
`(w, h)` and original shape `(oriH, oriW)`, the post-processor
bilinear-upsamples the prediction to `(2, oriH, oriW)` and divides channel
0 by `w` and channel 1 by `h`. -/
theorem postprocess_scale_upsamples (f : FlowTensor) (m : ImgMeta)
    (s : FlowDataSample) (w h : ℚ) (H W oriH oriW : Nat)
    (hf : hasShape f 2 H W = true)
    (hm : s.metainfo = some m) (hp : m.pad = none)
    (hsf : m.scale_factor = some (w, h)) (hori : m.ori_shape = (oriH, oriW)) :
    postprocess_result [f] (some [s]) =
      .ok (some
        [{ s with
            pred_flow_fw :=
              some (divideByScale (interpolateBilinear f oriH oriW) w h) }]) ∧
    hasShape (divideByScale (interpolateBilinear f oriH oriW) w h)
        2 oriH oriW = true ∧
    ∀ i j,
      at3 (divideByScale (interpolateBilinear f oriH oriW) w h) 0 i j =
        at3 (interpolateBilinear f oriH oriW) 0 i j / w ∧
      at3 (divideByScale (interpolateBilinear f oriH oriW) w h) 1 i j =
        at3 (interpolateBilinear f oriH oriW) 1 i j / h := by
  have hlen2 : (interpolateBilinear f oriH oriW).length = 2 := by
    simp [interpolateBilinear, hasShape_length f 2 H W hf]
  refine ⟨?_, divideByScale_shape _ 2 oriH oriW w h
      (interpolateBilinear_shape f 2 oriH oriW (hasShape_length f 2 H W hf)),
    fun i j => divideByScale_at3 _ w h (by omega) i j⟩
  simp [postprocess_result, processSample, hm, hp, hsf, hori]

/-- Witness for the scale theorem: a constant `(2,50,50)` tensor with
`scale_factor = (1/2, 1/2)` and `ori_shape = (100, 100)` is upsampled to
`(2,100,100)` and each channel divided by one half, doubling every entry. -/
theorem postprocess_scale_upsamples_witness :
    (hasShape (constFlow 2 50 50 3) 2 50 50 = true ∧
      sample5.metainfo = some meta5 ∧ meta5.pad = none ∧
      meta5.scale_factor = some (1/2, 1/2) ∧ meta5.ori_shape = (100, 100)) ∧
    (postprocess_result [constFlow 2 50 50 3] (some [sample5]) =
        .ok (some
          [{ sample5 with
              pred_flow_fw :=
                some (divideByScale
                  (interpolateBilinear (constFlow 2 50 50 3) 100 100)
                  (1/2) (1/2)) }]) ∧
      hasShape (divideByScale (interpolateBilinear (constFlow 2 50 50 3) 100 100)
          (1/2) (1/2)) 2 100 100 = true ∧
      ∀ i j,
        at3 (divideByScale (interpolateBilinear (constFlow 2 50 50 3) 100 100)
            (1/2) (1/2)) 0 i j =
          at3 (interpolateBilinear (constFlow 2 50 50 3) 100 100) 0 i j / (1/2) ∧
        at3 (divideByScale (interpolateBilinear (constFlow 2 50 50 3) 100 100)
            (1/2) (1/2)) 1 i j =
          at3 (interpolateBilinear (constFlow 2 50 50 3) 100 100) 1 i j / (1/2)) :=
  ⟨⟨hasShape_constFlow 2 50 50 3, rfl, rfl, rfl, rfl⟩,
    postprocess_scale_upsamples (constFlow 2 50 50 3) meta5 sample5
      (1/2) (1/2) 50 50 100 100 (hasShape_constFlow 2 50 50 3) rfl rfl rfl rfl⟩

/-- C6: when the metadata carries both a pad and a scale factor, only the
pad-cropping branch runs; the result is the crop, and it agrees with the
result obtained after erasing the scale factor from the metadata. -/
theorem postprocess_pad_wins_over_scale (f : FlowTensor) (m : ImgMeta)
    (s : FlowDataSample) (p : (Nat × Nat) × (Nat × Nat)) (w h : ℚ)
    (hm : s.metainfo = some m) (hp : m.pad = some p)
    (hsf : m.scale_factor = some (w, h)) :
    postprocess_result [f] (some [s]) =
      .ok (some [{ s with pred_flow_fw := some (cropPad f p) }]) ∧
    processSample f m = processSample f { m with scale_factor := none } := by
  constructor
  · simp [postprocess_result, processSample, hm, hp]
  · simp [processSample, hp]

/-- Witness for the pad-precedence theorem at a concrete sample carrying
both a pad and a scale factor. -/
theorem postprocess_pad_wins_over_scale_witness :
    (sample6.metainfo = some meta6 ∧ meta6.pad = some ((0, 0), (0, 0)) ∧
      meta6.scale_factor = some (1/2, 1/2)) ∧
    (postprocess_result [constFlow 2 1 1 1] (some [sample6]) =
        .ok (some [{ sample6 with
          pred_flow_fw := some (cropPad (constFlow 2 1 1 1) ((0, 0), (0, 0))) }]) ∧
      processSample (constFlow 2 1 1 1) meta6 =
        processSample (constFlow 2 1 1 1) { meta6 with scale_factor := none }) :=
  ⟨⟨rfl, rfl, rfl⟩,
    postprocess_pad_wins_over_scale (constFlow 2 1 1 1) meta6 sample6
      ((0, 0), (0, 0)) (1/2) (1/2) rfl rfl rfl⟩
